import Mathlib

/-!
Verification development for the BetterEquicord BD-compatibility layer.

Shallow embedding of the TypeScript sources into Lean 4. Conventions used
throughout:

* JavaScript `undefined` is modelled with `Option` (or an explicit `undef`
  constructor of a JS-value type); JS truthiness is made explicit.
* JS objects used as string-keyed dictionaries are modelled as association
  lists `List (String × _)`; `Object.keys` enumeration order is list order.
* Stateful code is modelled by explicit state passing; functions that can
  throw return `Except`/flagged results; side effects that matter to a claim
  (filesystem access, event traces) are returned as explicit traces.
* `Number(s)` on digit strings is modelled exactly as a natural number
  (IEEE-754 imprecision above 2^53 is not modelled); `Number("")` is `0`,
  non-numeric strings map to a `NaN` marker (`none`).
-/

/-! ## Changelog engine (part_001, `vcIsNewer` lines 127-134, `vcParseChangelog` lines 137-176) -/

/-- Split a character list at every occurrence of a separator character
(the semantics of JS `String.split` with a one-character separator:
`"".split(".")` is `[""]`, separators at the ends produce empty pieces). -/
def splitSep (sep : Char) : List Char → List Char → List String
  | [], acc => [String.mk acc.reverse]
  | c :: rest, acc =>
    if c = sep then String.mk acc.reverse :: splitSep sep rest []
    else splitSep sep rest (c :: acc)

/-- JS `s.split(sep)` for a one-character separator. -/
def jsSplit (s : String) (sep : Char) : List String :=
  splitSep sep s.toList []

/-- Decimal value of a digit run; `none` when a non-digit occurs. -/
def digitsVal : List Char → Nat → Option Nat
  | [], acc => some acc
  | c :: cs, acc =>
    if c.isDigit then digitsVal cs (acc * 10 + (c.toNat - 48)) else none

/-- Numeric reading of a non-empty character list: its decimal value when
it is all digits, `none` (NaN) otherwise. -/
def chToNat? (l : List Char) : Option Nat :=
  match l with
  | [] => none
  | _ => digitsVal l 0

/-- JS `Number(component)` for one dot-separated version component:
the empty string converts to `0`; a digit string converts to its value;
anything else is NaN (modelled `none`). -/
def jsNum (s : String) : Option Nat :=
  if s = "" then some 0 else chToNat? s.toList

/-- Full `v.split(".").map(Number)` from `vcIsNewer`. -/
def verTuple (v : String) : List (Option Nat) :=
  (jsSplit v '.').map jsNum

/-- JS `(a[i] || 0)`: out-of-range indices (`undefined`) and NaN both
collapse to `0`, as does an actual `0`. -/
def compAt (a : List (Option Nat)) (i : Nat) : Nat :=
  match a.get? i with
  | some (some n) => n
  | _ => 0

/-- Loop body of `vcIsNewer`: iterate `i` upward while `fuel` remains
(`fuel` is `max(a.length, b.length) - i` at entry). -/
def isNewerLoop (a b : List (Option Nat)) : Nat → Nat → Bool
  | _, 0 => false
  | i, fuel + 1 =>
    if compAt a i > compAt b i then true
    else if compAt a i < compAt b i then false
    else isNewerLoop a b (i + 1) fuel

/-- `vcIsNewer(v1, v2)` from part_001 lines 127-134. -/
def vcIsNewer (v1 v2 : String) : Bool :=
  let a := verTuple v1
  let b := verTuple v2
  isNewerLoop a b 0 (max a.length b.length)

/-- Characters matched by the JS `\s` class (ASCII portion; the unicode
space characters never occur in the inputs considered here). -/
def isJsSpace (c : Char) : Bool :=
  c = ' ' || c = '\t' || c = '\n' || c = '\r' || c = '\x0b' || c = '\x0c'

/-- Characters matched by the `[\d.]` class. -/
def isDigitOrDot (c : Char) : Bool :=
  c.isDigit || c = '.'

/-- Matching of `/^###\s+([\d.]+)/` against one line, returning the capture
group. The two character classes `\s` and `[\d.]` are disjoint, so greedy
matching without backtracking is exact. -/
def extractVer (line : String) : Option String :=
  if line.startsWith "###" then
    let rest := line.drop 3
    let ws := rest.takeWhile isJsSpace
    if ws.isEmpty then none
    else
      let afterWs := rest.dropWhile isJsSpace
      let ver := afterWs.takeWhile isDigitOrDot
      if ver.isEmpty then none else some ver
  else none

/-- JS `String.trim` (ASCII whitespace portion). -/
def jsTrim (s : String) : String :=
  String.mk (((s.toList.dropWhile isJsSpace).reverse.dropWhile isJsSpace).reverse)

/-- One parsed `### x.y.z` block: heading version plus collected bullets. -/
structure VBlock where
  version : String
  items : List String
deriving DecidableEq, Repr

/-- Line scan of `vcParseChangelog` (the `for (const line of lines)` loop
with the `curVer`/`items` accumulator, including the trailing flush). -/
def vcScan : List String → Option (String × List String) → List VBlock
  | [], none => []
  | [], some (v, its) => [⟨v, its⟩]
  | l :: ls, st =>
    match extractVer l with
    | some m =>
      match st with
      | some (v, its) => ⟨v, its⟩ :: vcScan ls (some (m, []))
      | none => vcScan ls (some (m, []))
    | none =>
      match st with
      | some (v, its) =>
        if (jsTrim l).startsWith "-" then
          let item := jsTrim ((jsTrim l).drop 1)
          if item = "" then vcScan ls (some (v, its))
          else vcScan ls (some (v, its ++ [item]))
        else vcScan ls (some (v, its))
      | none => vcScan ls none

/-- Substring test on character lists, used to model JS `String.includes`. -/
def listIncludes (hay sub : List Char) : Bool :=
  match hay with
  | [] => sub.isEmpty
  | _ :: t => sub.isPrefixOf hay || listIncludes t sub

/-- JS `s.includes(sub)`. -/
def jsIncludes (s sub : String) : Bool :=
  listIncludes s.toList sub.toList

/-- The four `grouped` buckets of `vcParseChangelog`. -/
structure Grouped where
  added : List String
  improved : List String
  fixed : List String
  other : List String
deriving DecidableEq, Repr

/-- Tag a bullet with its originating version: `` `${it} (v${v.version})` ``. -/
def vcTag (it ver : String) : String :=
  it ++ " (v" ++ ver ++ ")"

/-- Push of one bullet into the bucket record (body of the inner `for` loop
of `vcParseChangelog`, lines 160-167). -/
def vcPushItem (g : Grouped) (ver it : String) : Grouped :=
  let lower := it.toLower
  let tagged := vcTag it ver
  if jsIncludes lower "fix" then { g with fixed := g.fixed ++ [tagged] }
  else if jsIncludes lower "add" || jsIncludes lower "initial" then
    { g with added := g.added ++ [tagged] }
  else if jsIncludes lower "improv" || jsIncludes lower "updat" then
    { g with improved := g.improved ++ [tagged] }
  else { g with other := g.other ++ [tagged] }

/-- The two nested loops grouping all relevant bullets. -/
def vcGroupedOf (relevant : List VBlock) : Grouped :=
  relevant.foldl (fun g v => v.items.foldl (fun g it => vcPushItem g v.version it) g)
    ⟨[], [], [], []⟩

/-- One output entry of the changelog parser. -/
structure ChangeEntry where
  title : String
  type : String
  items : List String
deriving DecidableEq, Repr

/-- Final assembly of the result array (lines 170-175): one entry per
non-empty bucket, pushed in the order added, improved, fixed, other. -/
def vcResult (g : Grouped) : List ChangeEntry :=
  (if g.added ≠ [] then [ChangeEntry.mk "New Features" "added" g.added] else []) ++
  (if g.improved ≠ [] then [ChangeEntry.mk "Improvements" "improved" g.improved] else []) ++
  (if g.fixed ≠ [] then [ChangeEntry.mk "Fixes" "fixed" g.fixed] else []) ++
  (if g.other ≠ [] then [ChangeEntry.mk "Other Changes" "progress" g.other] else [])

/-- `vcParseChangelog(md, from, to)` from part_001 lines 137-176. -/
def vcParseChangelog (md fromV toV : String) : List ChangeEntry :=
  let versions := vcScan (jsSplit md '\n') none
  let relevant := versions.filter (fun v => vcIsNewer v.version fromV && !vcIsNewer v.version toV)
  vcResult (vcGroupedOf relevant)

/-! Spec-side definitions for the changelog claims, written from the
specification's words rather than the loop structure of the source. -/

/-- Integer tuple of a version string per the spec: split on dots, read each
component as an integer (empty or non-numeric components count 0, matching
`Number("") === 0` and `NaN || 0`). -/
def intTuple (v : String) : List Nat :=
  (jsSplit v '.').map (fun c => (chToNat? c.toList).getD 0)

/-- Spec-side dotted-integer-tuple comparison: compare components
numerically left to right, treating missing components as 0 (an exhausted
left tuple is all zeros and can never exceed, so that case is `false`
outright). -/
def tupleGtB : List Nat → List Nat → Bool
  | [], _ => false
  | a :: as, [] =>
    if a > 0 then true else tupleGtB as []
  | a :: as, b :: bs =>
    if a > b then true else if a < b then false else tupleGtB as bs

/-- Mathematical statement of "tuple of A is greater than tuple of B when
components are compared numerically left to right with missing components
treated as 0". -/
def TupleGt (A B : List Nat) : Prop :=
  ∃ i, (∀ j, j < i → A.getD j 0 = B.getD j 0) ∧ A.getD i 0 > B.getD i 0

/-- A dotted-integer version string: dot-separated non-empty digit runs. -/
def DottedIntStr (s : String) : Prop :=
  ∀ c ∈ jsSplit s '.', c ≠ "" ∧ (chToNat? c.toList).isSome

instance (s : String) : Decidable (DottedIntStr s) := by
  unfold DottedIntStr; infer_instance

/-- Bucket identifiers of the spec. -/
inductive Bucket where
  | added | improved | fixed | other
deriving DecidableEq, Repr

/-- Spec-side bucket assignment: case-insensitive substring match, priority
fixed over added-or-initial over improved-or-updated over other. -/
def bucketOf (it : String) : Bucket :=
  let lower := it.toLower
  if jsIncludes lower "fix" then .fixed
  else if jsIncludes lower "add" || jsIncludes lower "initial" then .added
  else if jsIncludes lower "improv" || jsIncludes lower "updat" then .improved
  else .other

/-- Projection of one bucket of the `grouped` record. -/
def bucketGet (g : Grouped) : Bucket → List String
  | .added => g.added
  | .improved => g.improved
  | .fixed => g.fixed
  | .other => g.other

/-- Spec-side contents of one bucket: all bullets of the relevant blocks, in
block order, filtered to the bullets assigned to that bucket, each tagged
with its originating version. -/
def specBucketItems (relevant : List VBlock) (b : Bucket) : List String :=
  relevant.flatMap (fun v => (v.items.filter (fun it => bucketOf it == b)).map (fun it => vcTag it v.version))

/-- Spec-side relevance of a version block. -/
def specRelevant (v fromV toV : String) : Bool :=
  tupleGtB (intTuple v) (intTuple fromV) && !tupleGtB (intTuple v) (intTuple toV)

/-- Title/type pair used for a bucket's output entry (matching the source's
literals; the claim constrains only order and non-emptiness). -/
def entryFor (b : Bucket) (items : List String) : ChangeEntry :=
  match b with
  | .added => ⟨"New Features", "added", items⟩
  | .improved => ⟨"Improvements", "improved", items⟩
  | .fixed => ⟨"Fixes", "fixed", items⟩
  | .other => ⟨"Other Changes", "progress", items⟩

/-- Spec-side changelog parse: relevant blocks by tuple comparison, buckets
by `bucketOf`, one entry per non-empty bucket in the order added, improved,
fixed, other. -/
def specParseChangelog (md fromV toV : String) : List ChangeEntry :=
  let versions := vcScan (jsSplit md '\n') none
  let relevant := versions.filter (fun v => specRelevant v.version fromV toV)
  [Bucket.added, Bucket.improved, Bucket.fixed, Bucket.other].filterMap
    (fun b =>
      let items := specBucketItems relevant b
      if items = [] then none else some (entryFor b items))

/-! ## Runtime require shim (part_003, `ReImplementationObject` lines 283-471, `FakeRequireRedirect` lines 473-475, `window.require` line 491) -/

/-- Values the require shim can produce. `undef` is JS `undefined`;
`inherited m` is the member `m` that `ReImplementationObject` inherits from
`Object.prototype` (the literal has the default prototype). -/
inductive ShimVal where
  | undef
  | fsShim | pathShim | httpsShim | requestShim | eventsShim
  | electronShim | cryptoShim | processShim
  | inherited (member : String)
deriving DecidableEq, Repr

/-- The `ReImplementationObject` literal viewed as a string-keyed table.
The `request` property is a getter returning the request shim only when the
experimental-request-polyfills setting is on, and `undefined` otherwise
(lines 355-359); `request_` always holds the shim. -/
def ReImplementationObject (experimentalPolyfills : Bool) : List (String × ShimVal) :=
  [("fs", .fsShim), ("path", .pathShim), ("https", .httpsShim),
   ("request_", .requestShim),
   ("request", if experimentalPolyfills then .requestShim else .undef),
   ("events", .eventsShim), ("electron", .electronShim),
   ("crypto", .cryptoShim), ("process", .processShim)]

/-- Property names `ReImplementationObject` inherits from
`Object.prototype` (an object literal has the default prototype, so these
names resolve through the prototype chain rather than to `undefined`). -/
def objectProtoMembers : List String :=
  ["constructor", "hasOwnProperty", "isPrototypeOf", "propertyIsEnumerable",
   "toLocaleString", "toString", "valueOf",
   "__defineGetter__", "__defineSetter__", "__lookupGetter__", "__lookupSetter__",
   "__proto__"]

/-- `FakeRequireRedirect = (name) => ReImplementationObject[name]`, installed
as `window.require`. A JS property read first resolves own keys, then the
prototype chain (`Object.prototype` for this literal), and yields
`undefined` for everything else; it cannot throw, hence the `Except` value
is always `ok`. -/
def FakeRequireRedirect (experimentalPolyfills : Bool) (name : String) : Except String ShimVal :=
  .ok (match (ReImplementationObject experimentalPolyfills).lookup name with
    | some v => v
    | none => if name ∈ objectProtoMembers then .inherited name else .undef)

/-- The module names actually present on `ReImplementationObject`. -/
def requireKeys : List String :=
  ["fs", "path", "https", "request_", "request", "events", "electron", "crypto", "process"]

/-! ## Per-label API instance (part_001, `BdApiReImplementationInstance.constructor` lines 1618-1651) -/

/-- Identity of one constructed `BdApiReImplementationInstance` together
with the identities of its per-label wrapper objects (`#data`, `#dom`,
`#patcher`), allocated with it. Distinct numbers model distinct JS object
identities. -/
structure InstRec where
  instId : Nat
  dataWrapperId : Nat
  domWrapperId : Nat
  patcherWrapperId : Nat
deriving DecidableEq, Repr

/-- State of the constructor: the global instance's `labelsOfInstancedAPI`
table plus an allocation counter for fresh object identities. -/
structure ApiState where
  labels : List (String × InstRec)
  nextId : Nat
deriving DecidableEq, Repr

/-- The shared global instance (`getGlobalApi()`), whose facades are the
global `DataHolder`/`DOMHolder`/`Patcher` objects. -/
def globalInstance : InstRec := ⟨0, 0, 0, 0⟩

/-- The constructor: with a label, return the instance already registered
under that label if any, else allocate one (with fresh wrappers) and
register it; without a label, return the shared global instance. -/
def mkBdApiInstance (st : ApiState) (label : Option String) : ApiState × InstRec :=
  match label with
  | none => (st, globalInstance)
  | some l =>
    match st.labels.lookup l with
    | some inst => (st, inst)
    | none =>
      let inst : InstRec := ⟨st.nextId, st.nextId + 1, st.nextId + 2, st.nextId + 3⟩
      ({ labels := st.labels ++ [(l, inst)], nextId := st.nextId + 4 }, inst)

/-! ## DataHolder (part_001, lines 851-889) -/

/-- JS values stored through the Data facade (NaN not modelled). -/
inductive JsV where
  | undef | null
  | bool (b : Bool)
  | num (n : Int)
  | str (s : String)
deriving DecidableEq, Repr

/-- JS truthiness of a `JsV`. -/
def jsTruthy : JsV → Bool
  | .undef => false
  | .null => false
  | .bool b => b
  | .num n => n != 0
  | .str s => s != ""

/-- JS property-key coercion of a value used as an object key. -/
def jsPropKey : JsV → String
  | .undef => "undefined"
  | .null => "null"
  | .bool b => if b then "true" else "false"
  | .num n => toString n
  | .str s => s

/-- Set a key in a string-keyed object (replace first binding or append). -/
def setAssoc (m : List (String × JsV)) (k : String) (v : JsV) : List (String × JsV) :=
  match m with
  | [] => [(k, v)]
  | (k0, v0) :: rest =>
    if k0 = k then (k0, v) :: rest else (k0, v0) :: setAssoc rest k v

/-- Set a label's entry in the in-memory cache. -/
def setCache (c : List (String × List (String × JsV))) (k : String)
    (v : List (String × JsV)) : List (String × List (String × JsV)) :=
  match c with
  | [] => [(k, v)]
  | (k0, v0) :: rest =>
    if k0 = k then (k0, v) :: rest else (k0, v0) :: setCache rest k v

/-- Set a file's content on the modelled disk. -/
def setDisk (d : List (String × Option (List (String × JsV)))) (p : String)
    (v : Option (List (String × JsV))) : List (String × Option (List (String × JsV))) :=
  match d with
  | [] => [(p, v)]
  | (p0, v0) :: rest =>
    if p0 = p then (p0, v) :: rest else (p0, v0) :: setDisk rest p v

/-- State visible to `DataHolder`: the `pluginData` in-memory cache and the
on-disk config files (a file content of `none` models unparsable JSON). -/
structure DHState where
  pluginData : List (String × List (String × JsV))
  disk : List (String × Option (List (String × JsV)))
deriving DecidableEq, Repr

/-- Filesystem operations performed, recorded as an explicit trace. -/
inductive FsOp where
  | statFile (p : String)
  | readFile (p : String)
  | writeFile (p : String)
deriving DecidableEq, Repr

/-- `PluginsHolder.folder` (rootFolder "/BD" plus "/plugins"). -/
def pluginsFolder : String := "/BD/plugins"

/-- Path of a label's config file. -/
def configPath (label : String) : String :=
  pluginsFolder ++ "/" ++ label ++ ".config.json"

/-- `DataHolder.latestDataCheck(key)`: hydrate the cache for a label on
first access; a missing file yields an empty object, a corrupted file is
reset to an empty object. -/
def DataHolder.latestDataCheck (st : DHState) (label : String) : DHState × List FsOp :=
  if (st.pluginData.lookup label).isSome then (st, [])
  else
    let p := configPath label
    match st.disk.lookup p with
    | none => ({ st with pluginData := setCache st.pluginData label [] }, [.statFile p])
    | some none =>
      ({ st with pluginData := setCache st.pluginData label [] }, [.statFile p, .readFile p])
    | some (some content) =>
      ({ st with pluginData := setCache st.pluginData label content }, [.statFile p, .readFile p])

/-- `DataHolder.load(key, value)` (the first parameter is the plugin label,
the second the data key). Returns the loaded value (JS `undefined` when the
guard trips or the key is absent) together with the state and fs trace. -/
def DataHolder.load (st : DHState) (label value : JsV) : DHState × List FsOp × JsV :=
  if !jsTruthy value || !jsTruthy label then (st, [], .undef)
  else
    let k := jsPropKey label
    let (st1, ops) := DataHolder.latestDataCheck st k
    (st1, ops, (((st1.pluginData.lookup k).getD []).lookup (jsPropKey value)).getD .undef)

/-- `DataHolder.save(key, value, data)` (label, data key, datum). -/
def DataHolder.save (st : DHState) (label value data : JsV) : DHState × List FsOp :=
  if !jsTruthy value || !jsTruthy label || !jsTruthy data then (st, [])
  else
    let k := jsPropKey label
    let (st1, ops) := DataHolder.latestDataCheck st k
    let entry := setAssoc ((st1.pluginData.lookup k).getD []) (jsPropKey value) data
    ({ pluginData := setCache st1.pluginData k entry,
       disk := setDisk st1.disk (configPath k) (some entry) },
     ops ++ [.writeFile (configPath k)])

/-! ## Required-metadata validation (pluginConstructor.ts, `convertPlugin` lines 238-279) -/

/-- The three required fields of an assembled plugin record, after metadata
parsing and legacy-getter overrides. A JS-`undefined` or empty field is
modelled as the empty string (both are falsy under the source's check). -/
structure FinalMeta where
  name : String
  version : String
  description : String
deriving DecidableEq, Repr

/-- `const neededMeta = ["name", "version", "description"]`. -/
def neededMeta : List String := ["name", "version", "description"]

/-- Property read `final[prop]` for the required props. -/
def metaField (f : FinalMeta) : String → String
  | "name" => f.name
  | "version" => f.version
  | "description" => f.description
  | _ => ""

/-- `neededMeta.filter(prop => !final || !final[prop])`. -/
def whatsMissing (f : FinalMeta) : List String :=
  neededMeta.filter (fun p => metaField f p = "")

/-- The notice raised for incomplete metadata: the field names interpolated
into the `<strong>` element, the `timeout: 0` option (persistent), and the
presence of a dismiss button. -/
structure MissingNotice where
  missingShown : List String
  timeoutMs : Nat
  hasDismissButton : Bool
deriving DecidableEq, Repr

/-- Body text of the notice (the template literal of lines 263-265, with the
joined missing-field list uppercased). -/
def noticeText (nameOrId : String) (missing : List String) : String :=
  "The BD Plugin " ++ nameOrId ++ " is missing the following metadata below<br><br><strong>"
    ++ (String.intercalate ", " missing).toUpper
    ++ "</strong><br><br>The plugin could not be started, Please fix."

/-- Application of the legacy getter overrides (lines 241-246): `getName`
and `getDescription` replace the parsed values when present; `getVersion`
replaces the version with its result or the sentinel "6.6.6" when that
result is falsy. -/
def applyLegacyGetters (parsed : FinalMeta)
    (getName getVersion getDescription : Option String) : FinalMeta :=
  let f1 := match getName with
    | some n => { parsed with name := n }
    | none => parsed
  let f2 := match getVersion with
    | some v => { f1 with version := if v = "" then "6.6.6" else v }
    | none => f1
  match getDescription with
  | some d => { f2 with description := d }
  | none => f2

/-- The required-field validation of `convertPlugin` (lines 256-279): when
any required field is missing, raise the persistent dismissible notice and
throw; otherwise continue. The thrown error message embeds the notice text
("Incomplete plugin, " prefix). -/
def metaCheck (f : FinalMeta) (id : String) : Except (MissingNotice × String) Unit :=
  let missing := whatsMissing f
  if missing.length > 0 then
    let nameOrId := if f.name ≠ "" then f.name else id
    .error (⟨missing, 0, true⟩, "Incomplete plugin, " ++ noticeText nameOrId missing)
  else .ok ()

/-- Spec-side list of the missing required fields, named directly. -/
def specMissing (f : FinalMeta) : List String :=
  (if f.name = "" then ["name"] else [])
    ++ (if f.version = "" then ["version"] else [])
    ++ (if f.description = "" then ["description"] else [])

/-! ## waitForModule (part_001, `WebpackHolder.waitForModule` lines 619-668) -/

/-- Values passed to the promise resolver: `undefined` on quiet-cancel, or
a discovered module (abstracted to a number; the `defaultExport`/`raw`
post-processing does not affect settlement). -/
inductive WfVal where
  | notFoundUndef
  | found (m : Nat)
deriving DecidableEq, Repr

/-- State of one `waitForModule` call: the closure-local `aborted` flag,
whether the abort listener is currently attached, whether the
`Vencord.Webpack.waitFor` callback is still pending, and the settlement
record of the promise (number of resolver invocations and the value of the
first one). -/
structure WfState where
  aborted : Bool
  listener : Bool
  waiting : Bool
  resolveCalls : Nat
  result : Option WfVal
deriving DecidableEq, Repr

/-- One invocation of the promise resolver. Only the first invocation
settles the promise; the count records every call so that "resolves exactly
once" is about calls, not merely observable state. -/
def resolveOnce (v : WfVal) (st : WfState) : WfState :=
  if st.resolveCalls = 0 then { st with resolveCalls := 1, result := some v }
  else { st with resolveCalls := st.resolveCalls + 1 }

/-- The `onAbort` handler (lines 625-631): set the flag, detach the
listener, resolve with `undefined`. -/
def onAbortBody (st : WfState) : WfState :=
  resolveOnce .notFoundUndef { st with aborted := true, listener := false }

/-- The synchronous body of the promise executor (lines 622-647): handle an
already-aborted signal, otherwise attach the listener, check for an
existing module, and finally register the `waitFor` callback. -/
def waitForModuleSetup (hasSignal signalAborted : Bool) (existing : Option Nat) : WfState :=
  let st0 : WfState := ⟨false, false, false, 0, none⟩
  if hasSignal && signalAborted then onAbortBody st0
  else
    let st1 := if hasSignal then { st0 with listener := true } else st0
    match existing with
    | some m => resolveOnce (.found m) { st1 with listener := false }
    | none => { st1 with waiting := true }

/-- External events after setup: the signal firing `abort`, or the host
discovering a matching module. -/
inductive WfEv where
  | abortFire
  | discovery (m : Nat)
deriving DecidableEq, Repr

/-- Event handling: `abort` runs `onAbort` only while the listener is
attached (it was registered `once` and is removed on every settlement
path); a discovery runs the `waitFor` callback (lines 647-666), which
detaches the listener and ignores the module when `aborted` is set. -/
def wfStep (st : WfState) : WfEv → WfState
  | .abortFire => if st.listener then onAbortBody st else st
  | .discovery m =>
    if st.waiting then
      let st1 := { st with listener := false, waiting := false }
      if st1.aborted then st1 else resolveOnce (.found m) st1
    else st

/-- Run a sequence of external events. -/
def wfRun (st : WfState) (evs : List WfEv) : WfState :=
  evs.foldl wfStep st

/-! ## Queued-plugin window (pluginConstructor.ts, `convertPlugin` lines 183-321) -/

/-- Outcomes of one `convertPlugin` run: metadata-parse throw (line 213 via
`parseLegacyMeta`/`parseNewMeta`), instantiation throw (line 235),
missing-required-metadata throw (line 278), or success. -/
inductive AsmOutcome where
  | parseFail
  | instFail
  | missingMeta
  | ok
deriving DecidableEq, Repr

/-- `findIndex`-plus-`splice(index, 1)` on the queued list (lines 314-317):
remove the first entry with the given filename, if any. -/
def eraseFirstFilename (q : List String) (fn : String) : List String :=
  match q with
  | [] => []
  | x :: xs => if x = fn then xs else x :: eraseFirstFilename xs fn

/-- Queue-visibility report of one `convertPlugin` run over the
`queuedPlugins` list (entries abstracted to their filenames). -/
structure QueueReport where
  queueDuringParse : List String
  pushedAfterParse : Bool
  finalQueue : List String
deriving DecidableEq, Repr

/-- Queue behavior of `convertPlugin`: metadata parsing (line 213) runs
before the push of the placeholder proxy (line 223), so during parsing the
queue is still the initial one and a parse failure propagates with no entry
ever queued; the instantiation throw (line 235) and the missing-metadata
throw (line 278) propagate without reaching the splice (lines 314-317),
which runs only on the success path. -/
def convertPluginQueue (q0 : List String) (fn : String) (outcome : AsmOutcome) : QueueReport :=
  match outcome with
  | .parseFail => ⟨q0, false, q0⟩
  | .instFail => ⟨q0, true, q0 ++ [fn]⟩
  | .missingMeta => ⟨q0, true, q0 ++ [fn]⟩
  | .ok => ⟨q0, true, eraseFirstFilename (q0 ++ [fn]) fn⟩

/-! ## getMangled (part_001, `WebpackHolder.getMangled` lines 545-618) -/

/-- Values of module properties (abstracted; `undef` is JS `undefined`). -/
inductive MVal where
  | undef
  | val (n : Nat)
deriving DecidableEq, Repr

/-- Property descriptors of the found module: plain data properties,
getter-only accessors (whose getter may throw, modelled `none`), and
getter/setter accessors. -/
inductive PDesc where
  | dataProp (v : MVal)
  | getterOnly (res : Option MVal)
  | getterSetter (v : MVal)
deriving DecidableEq, Repr

/-- Value placed into `writableModule` for one property (lines 560-573):
a getter-only property is resolved through its getter (or `undefined` when
the getter throws); every other property is read normally. -/
def flattenDesc : PDesc → MVal
  | .dataProp v => v
  | .getterOnly (some v) => v
  | .getterOnly none => .undef
  | .getterSetter v => v

/-- The `writableModule` bag built from the found module. -/
def flattenModule (m : List (String × PDesc)) : List (String × MVal) :=
  m.map (fun kv => (kv.1, flattenDesc kv.2))

/-- First-match-or-keep combinator used to state the loop lemmas. -/
def optOr {α : Type} : Option α → Option α → Option α
  | some w, _ => some w
  | none, d => d

/-- Inner mapper loop (lines 585-600) for one module value: each mapper key
not yet mapped is assigned the value if its validator accepts it. -/
def mapLoopInner (mappers : List (String × (MVal → Bool))) (v : MVal)
    (mapped : List (String × MVal)) : List (String × MVal) :=
  mappers.foldl
    (fun mapped mp =>
      if (mapped.lookup mp.1).isSome then mapped
      else if mp.2 v then mapped ++ [(mp.1, v)]
      else mapped)
    mapped

/-- Outer loop over the writable module's keys (lines 581-601). -/
def mapLoop (wm : List (String × MVal)) (mappers : List (String × (MVal → Bool))) :
    List (String × MVal) :=
  wm.foldl (fun mapped kv => mapLoopInner mappers kv.2 mapped) []

/-- The ensure-all-keys pass (lines 603-609): every mapper key still absent
is set to `undefined`. -/
def ensureKeys (mapped : List (String × MVal))
    (mappers : List (String × (MVal → Bool))) : List (String × MVal) :=
  mappers.foldl
    (fun mapped mp =>
      if (mapped.lookup mp.1).isSome then mapped else mapped ++ [(mp.1, MVal.undef)])
    mapped

/-- `getMangled` (lines 545-618), with the filter search abstracted to its
result: `none` models "no module matched the filter", in which case the
source returns the empty object literal (line 555). The hidden symbol tag
(lines 612-615) is not part of the string-keyed property bag and is
omitted. -/
def getMangled (mod : Option (List (String × PDesc)))
    (mappers : List (String × (MVal → Bool))) : List (String × MVal) :=
  match mod with
  | none => []
  | some m => ensureKeys (mapLoop (flattenModule m) mappers) mappers

/-! ## PluginsHolder.enable (part_001, lines 369-399; `softReloadBDPlugin` lines 288-324; `safeStopPlugin` lines 118-122) -/

/-- Events of one `enable` call, in execution order. -/
inductive EnEv where
  | markEnabled          -- `Settings.plugins[p.name].enabled = true` (line 374)
  | markStatus           -- `pluginsStatus[p.name] = true` (line 375)
  | reloadAttempt        -- entering the soft-reload branch (line 385)
  | rlMarkStatus         -- `pluginsStatus[p.name] = wasEnabled` (line 297)
  | rlStop               -- `stopPlugin` via `safeStopPlugin` (line 119)
  | rlUnpatch            -- `Patcher.unpatchAll` (line 120)
  | rlDestyle            -- `DOM.removeStyle` (line 121)
  | rlDeregister         -- splice from GeneratedPlugins + delete registry entry (lines 304-306)
  | rlReread             -- `fs.readFileSync` (line 310)
  | rlAssemble           -- `convertPlugin` (line 311)
  | rlReregister         -- `addCustomPlugin` (line 314)
  | rlAutoStart          -- `startPlugin` inside `addCustomPlugin` (status intent true)
  | rlStamp              -- `stampFileSigOnCurrent` (line 315)
  | warnLogged           -- `console.warn` fallback warning (line 389)
  | startExisting        -- `startPlugin(Vencord.Plugins.plugins[p.name])` (line 395)
  | startThrewSwallowed  -- that `startPlugin` threw on a missing entry; swallowed (line 398)
  | stampExisting        -- `stampFileSigOnCurrent` (line 397)
deriving DecidableEq, Repr

/-- Mutable state touched by `enable`: the host enabled flag, the compat
layer's `pluginsStatus` intent, whether the plugin name is registered in
the host plugin table, and whether the plugin is running. -/
structure EnState where
  enabled : Bool
  status : Bool
  registered : Bool
  started : Bool
deriving DecidableEq, Repr

/-- Inputs fixed for one `enable` call: whether `resolvePluginByAny` found
the plugin, `current?.filename`, the stamped signature
`current?.__bdFileSig`, and the fresh on-disk signature `getFileSig(...)`
(`none` when fs/file/stat is unavailable). -/
structure EnInput where
  resolved : Bool
  currentFilename : Option String
  hadSig : Option Int
  nowSig : Option Int
deriving DecidableEq, Repr

/-- Where `softReloadBDPlugin` throws, if anywhere. `noFsOrFilename` is the
guard throw of line 290, before any state mutation; the two late failures
(re-read at line 310, re-assembly at line 311) happen after the old
instance has been stopped and deregistered. -/
inductive ReloadOutcome where
  | noFsOrFilename
  | failAtReread
  | failAtAssemble
  | ok
deriving DecidableEq, Repr

/-- JS truthiness of `current?.__bdFileSig` (a number or `undefined`). -/
def jsTruthyNum : Option Int → Bool
  | none => false
  | some n => n != 0

/-- JS truthiness of `current?.filename` (a string or `undefined`). -/
def jsTruthyStr : Option String → Bool
  | none => false
  | some s => s != ""

/-- The reload condition of `enable` (line 383):
`(current?.filename && nowSig !== undefined && hadSig !== nowSig) ||
(!hadSig && nowSig !== undefined)`. -/
def enableCond (inp : EnInput) : Bool :=
  (jsTruthyStr inp.currentFilename && inp.nowSig.isSome && inp.hadSig != inp.nowSig)
    || (!jsTruthyNum inp.hadSig && inp.nowSig.isSome)

/-- Result of one `softReloadBDPlugin` run. -/
structure ReloadResult where
  st : EnState
  evs : List EnEv
  threw : Bool
deriving DecidableEq, Repr

/-- `softReloadBDPlugin(p)` (lines 288-324): records the current
enabled-state as the status intent, stops and cleans the old instance,
detaches it from the registries, then re-reads, re-assembles and
re-registers from disk; `addCustomPlugin` auto-starts the new instance
when the status intent is set. A throw at the guard leaves the state
untouched; the late throws leave the plugin deregistered and stopped. -/
def softReloadBDPlugin (st : EnState) (outcome : ReloadOutcome) : ReloadResult :=
  match outcome with
  | .noFsOrFilename => ⟨st, [], true⟩
  | .failAtReread =>
    ⟨{ st with status := st.enabled, started := false, registered := false },
     [.rlMarkStatus, .rlStop, .rlUnpatch, .rlDestyle, .rlDeregister], true⟩
  | .failAtAssemble =>
    ⟨{ st with status := st.enabled, started := false, registered := false },
     [.rlMarkStatus, .rlStop, .rlUnpatch, .rlDestyle, .rlDeregister, .rlReread], true⟩
  | .ok =>
    ⟨{ st with status := st.enabled, registered := true, started := st.enabled },
     [.rlMarkStatus, .rlStop, .rlUnpatch, .rlDestyle, .rlDeregister, .rlReread,
       .rlAssemble, .rlReregister]
       ++ (if st.enabled then [.rlAutoStart] else []) ++ [.rlStamp], false⟩

/-- `PluginsHolder.enable(idOrFile)` (lines 369-399): no-op on an
unresolvable id; otherwise mark enabled-intent (both flags), evaluate the
file-signature condition, soft-reload when it holds (falling back, on a
throw, to `startPlugin` on the current registry entry with a logged
warning — that `startPlugin` itself throws, and is swallowed by the empty
catch, when the entry was already deregistered), and otherwise just start
the existing instance and stamp its signature. -/
def PluginsHolder.enable (inp : EnInput) (outcome : ReloadOutcome) (st0 : EnState) :
    EnState × List EnEv :=
  if !inp.resolved then (st0, [])
  else
    let st1 : EnState := { st0 with enabled := true, status := true }
    let evs1 : List EnEv := [.markEnabled, .markStatus]
    if enableCond inp then
      let r := softReloadBDPlugin st1 outcome
      if r.threw then
        let evs3 := evs1 ++ [.reloadAttempt] ++ r.evs ++ [.warnLogged]
        if r.st.registered then
          ({ r.st with started := true }, evs3 ++ [.startExisting, .stampExisting])
        else
          (r.st, evs3 ++ [.startThrewSwallowed])
      else
        (r.st, evs1 ++ [.reloadAttempt] ++ r.evs)
    else
      if st1.registered then
        ({ st1 with started := true }, evs1 ++ [.startExisting, .stampExisting])
      else
        (st1, evs1 ++ [.startThrewSwallowed])

/-- Settlement invariant of `waitForModule`: the resolver has run at most
once, and once it has run neither settlement source is still armed (the
abort listener is detached, and the `waitFor` callback is either consumed
or neutralized by the `aborted` flag). -/
def wfInv (st : WfState) : Prop :=
  st.resolveCalls ≤ 1
    ∧ (st.resolveCalls = 1 → st.listener = false ∧ (st.waiting = false ∨ st.aborted = true))

/-! # Theorems -/

/-! ## C7: require allow-list -/

/-- C7 counterexample: the claim states that `require(name)` throws for any
module name outside the allow-list. It does not: `require("child_process")`
is an ordinary property read on `ReImplementationObject`, which resolves to
`undefined` rather than throwing. -/
theorem c7_counterexample :
    ¬ (∃ e, FakeRequireRedirect false "child_process" = Except.error e) := by
  rintro ⟨e, h⟩
  rw [show FakeRequireRedirect false "child_process" = .ok .undef from rfl] at h
  cases h

/-- Names outside the allow-list are not own keys of the shim table. -/
theorem requireLookup_eq_none (exp : Bool) (name : String) (h : name ∉ requireKeys) :
    (ReImplementationObject exp).lookup name = none := by
  simp only [requireKeys, List.mem_cons, List.not_mem_nil, or_false, not_or] at h
  obtain ⟨h1, h2, h3, h4, h5, h6, h7, h8, h9⟩ := h
  have e1 : (name == "fs") = false := beq_eq_false_iff_ne.mpr h1
  have e2 : (name == "path") = false := beq_eq_false_iff_ne.mpr h2
  have e3 : (name == "https") = false := beq_eq_false_iff_ne.mpr h3
  have e4 : (name == "request_") = false := beq_eq_false_iff_ne.mpr h4
  have e5 : (name == "request") = false := beq_eq_false_iff_ne.mpr h5
  have e6 : (name == "events") = false := beq_eq_false_iff_ne.mpr h6
  have e7 : (name == "electron") = false := beq_eq_false_iff_ne.mpr h7
  have e8 : (name == "crypto") = false := beq_eq_false_iff_ne.mpr h8
  have e9 : (name == "process") = false := beq_eq_false_iff_ne.mpr h9
  simp [ReImplementationObject, List.lookup,
    e1, e2, e3, e4, e5, e6, e7, e8, e9]

/-- C7 (amended): the shimmed `require` never throws; allow-listed names
resolve to their shim objects (with `request` gated on the
experimental-polyfills setting); a name outside the allow-list resolves to
the member `ReImplementationObject` inherits from `Object.prototype` when
it is one of those (for example `require("toString")`), and to `undefined`
otherwise. -/
theorem c7_require_allowlist (exp : Bool) (name : String) :
    (FakeRequireRedirect exp name).isOk = true
    ∧ (name ∉ requireKeys → name ∉ objectProtoMembers →
        FakeRequireRedirect exp name = .ok .undef)
    ∧ (name ∉ requireKeys → name ∈ objectProtoMembers →
        FakeRequireRedirect exp name = .ok (.inherited name))
    ∧ FakeRequireRedirect exp "fs" = .ok .fsShim
    ∧ FakeRequireRedirect exp "path" = .ok .pathShim
    ∧ FakeRequireRedirect exp "events" = .ok .eventsShim
    ∧ FakeRequireRedirect exp "electron" = .ok .electronShim
    ∧ FakeRequireRedirect exp "crypto" = .ok .cryptoShim
    ∧ FakeRequireRedirect exp "process" = .ok .processShim
    ∧ FakeRequireRedirect exp "https" = .ok .httpsShim
    ∧ FakeRequireRedirect exp "request" = .ok (if exp then .requestShim else .undef) := by
  refine ⟨rfl, ?_, ?_, ?_, ?_, ?_, ?_, ?_, ?_, ?_, ?_⟩
  · intro h hp
    simp [FakeRequireRedirect, requireLookup_eq_none exp name h, hp]
  · intro h hp
    simp [FakeRequireRedirect, requireLookup_eq_none exp name h, hp]
  all_goals cases exp <;> rfl

/-- C7 witness: the amended theorem applied at the concrete names
"child_process" (resolves to `undefined`) and "toString" (resolves to the
inherited `Object.prototype` member). -/
theorem c7_witness :
    ("child_process" ∉ requireKeys ∧ "child_process" ∉ objectProtoMembers
      ∧ FakeRequireRedirect false "child_process" = .ok .undef)
    ∧ ("toString" ∉ requireKeys ∧ "toString" ∈ objectProtoMembers
      ∧ FakeRequireRedirect false "toString" = .ok (.inherited "toString")) := by
  refine ⟨⟨by decide, by decide, ?_⟩, by decide, by decide, ?_⟩
  · exact (c7_require_allowlist false "child_process").2.1 (by decide) (by decide)
  · exact (c7_require_allowlist false "toString").2.2.1 (by decide) (by decide)

/-! ## C9: singleton-per-label API instances -/

/-- C9: constructing the per-label scoped API instance twice with equal
labels returns the same underlying instance (and therefore the identical
scoped Data, DOM and Patcher wrappers, which are fields of that instance),
without changing the registry on the second call; construction without a
label returns the shared global instance. -/
theorem c9_singleton_per_label (st : ApiState) (l : String) :
    (mkBdApiInstance (mkBdApiInstance st (some l)).1 (some l)).2
        = (mkBdApiInstance st (some l)).2
    ∧ (mkBdApiInstance (mkBdApiInstance st (some l)).1 (some l)).1
        = (mkBdApiInstance st (some l)).1
    ∧ mkBdApiInstance st none = (st, globalInstance) := by
  have hlook : ∀ (ls : List (String × InstRec)) (x : InstRec),
      ls.lookup l = none → (ls ++ [(l, x)]).lookup l = some x := by
    intro ls x h
    induction ls with
    | nil => simp [List.lookup]
    | cons hd tl ih =>
      obtain ⟨k, v⟩ := hd
      cases heq : (l == k) with
      | true => simp [List.lookup, heq] at h
      | false =>
        simp only [List.lookup, heq] at h
        simpa [List.lookup, heq] using ih h
  have hmain : mkBdApiInstance (mkBdApiInstance st (some l)).1 (some l)
      = mkBdApiInstance st (some l) := by
    cases hl : st.labels.lookup l with
    | some inst => simp [mkBdApiInstance, hl]
    | none =>
      simp only [mkBdApiInstance, hl]
      rw [hlook st.labels _ hl]
  exact ⟨by rw [hmain], by rw [hmain], rfl⟩

/-! ## C10: DataHolder falsy guards -/

/-- C10: `DataHolder.save` is a complete no-op (cache, disk and filesystem
trace all unchanged) whenever the label, the key or the datum is falsy —
in particular for the data values `false`, `0`, `null` and the empty
string — and `DataHolder.load` returns `undefined` without touching the
filesystem when the label or the key is falsy. -/
theorem c10_dataholder_falsy_guard (st : DHState) (label value data : JsV) :
    ((jsTruthy label = false ∨ jsTruthy value = false ∨ jsTruthy data = false) →
      DataHolder.save st label value data = (st, []))
    ∧ ((jsTruthy label = false ∨ jsTruthy value = false) →
      DataHolder.load st label value = (st, [], .undef)) := by
  constructor
  · intro h
    have : (!jsTruthy value || !jsTruthy label || !jsTruthy data) = true := by
      rcases h with h | h | h <;> simp [h]
    simp [DataHolder.save, this]
  · intro h
    have : (!jsTruthy value || !jsTruthy label) = true := by
      rcases h with h | h <;> simp [h]
    simp [DataHolder.load, this]

/-- C10 witness: saving the falsy datum `false` under a truthy label and key
leaves an empty state untouched. -/
theorem c10_witness :
    jsTruthy (.bool false) = false
    ∧ DataHolder.save ⟨[], []⟩ (.str "SomePlugin") (.str "setting") (.bool false)
        = (⟨[], []⟩, []) :=
  ⟨rfl, (c10_dataholder_falsy_guard ⟨[], []⟩ (.str "SomePlugin") (.str "setting")
      (.bool false)).1 (Or.inr (Or.inr rfl))⟩

/-! ## C6: missing required metadata -/

/-- C6: after metadata parsing and legacy-getter overrides, the assembler's
required-field validation throws exactly when `name`, `version` or
`description` is missing, raising a persistent (`timeout: 0`), manually
dismissible notice that names exactly the missing fields; on success it
proceeds with no notice. -/
theorem c6_missing_required_metadata (parsed : FinalMeta)
    (gn gv gd : Option String) (id : String) :
    (let f := applyLegacyGetters parsed gn gv gd
     metaCheck f id =
       (if f.name = "" ∨ f.version = "" ∨ f.description = "" then
          .error (⟨specMissing f, 0, true⟩,
            "Incomplete plugin, "
              ++ noticeText (if f.name ≠ "" then f.name else id) (specMissing f))
        else .ok ())) := by
  intro f
  have hmiss : whatsMissing f = specMissing f := by
    simp [whatsMissing, neededMeta, specMissing, metaField, List.filter]
    rcases eq_or_ne f.name "" with h1 | h1 <;>
      rcases eq_or_ne f.version "" with h2 | h2 <;>
      rcases eq_or_ne f.description "" with h3 | h3 <;>
      simp [h1, h2, h3]
  rcases eq_or_ne f.name "" with h1 | h1 <;>
    rcases eq_or_ne f.version "" with h2 | h2 <;>
    rcases eq_or_ne f.description "" with h3 | h3 <;>
    simp [metaCheck, hmiss, specMissing, h1, h2, h3]

/-- C6 witness: a record missing only `version` after overrides produces the
error notice naming exactly "version". -/
theorem c6_witness :
    metaCheck (applyLegacyGetters ⟨"Foo", "", "does things"⟩ none none none) "Foo"
      = .error (⟨["version"], 0, true⟩,
          "Incomplete plugin, " ++ noticeText "Foo" ["version"]) := by
  have h := c6_missing_required_metadata ⟨"Foo", "", "does things"⟩ none none none "Foo"
  simpa [applyLegacyGetters, specMissing] using h

/-! ## C2: waitForModule cancellation -/

/-- Preservation of the settlement invariant by every external event. -/
theorem wfStep_inv (st : WfState) (ev : WfEv) (h : wfInv st) : wfInv (wfStep st ev) := by
  obtain ⟨hle, h1⟩ := h
  rcases Nat.le_one_iff_eq_zero_or_eq_one.mp hle with hc | hc
  · cases ev with
    | abortFire =>
      by_cases hl : st.listener <;>
        simp [wfStep, hl, onAbortBody, resolveOnce, hc, wfInv]
    | discovery m =>
      by_cases hw : st.waiting
      · by_cases ha : st.aborted <;>
          simp [wfStep, hw, ha, resolveOnce, hc, wfInv]
      · simp only [Bool.not_eq_true] at hw
        simp [wfStep, hw, wfInv, hc]
  · have hs := h1 hc
    cases ev with
    | abortFire =>
      simp only [wfStep, hs.1, Bool.false_eq_true, if_false]
      exact ⟨hle, h1⟩
    | discovery m =>
      by_cases hw : st.waiting
      · have ha : st.aborted = true := by
          rcases hs.2 with hw2 | ha
          · rw [hw2] at hw; exact absurd hw Bool.false_ne_true
          · exact ha
        simp [wfStep, hw, ha, wfInv, hc]
      · simp only [Bool.not_eq_true] at hw
        simp only [wfStep, hw, Bool.false_eq_true, if_false]
        exact ⟨hle, h1⟩

/-- The setup of every `waitForModule` call establishes the invariant. -/
theorem wfSetup_inv (hasSignal signalAborted : Bool) (existing : Option Nat) :
    wfInv (waitForModuleSetup hasSignal signalAborted existing) := by
  cases hasSignal <;> cases signalAborted <;> cases existing <;>
    simp [waitForModuleSetup, onAbortBody, resolveOnce, wfInv]

/-- The invariant is preserved by any run of external events. -/
theorem wfRun_inv (evs : List WfEv) (st : WfState) (h : wfInv st) :
    wfInv (wfRun st evs) := by
  induction evs generalizing st with
  | nil => exact h
  | cons ev evs ih => exact ih _ (wfStep_inv st ev h)

/-- A state with no armed settlement source is fixed under every event. -/
theorem wfStep_settled (st : WfState) (ev : WfEv)
    (hl : st.listener = false) (hw : st.waiting = false) : wfStep st ev = st := by
  cases ev <;> simp [wfStep, hl, hw]

/-- Runs from a fully-disarmed state change nothing. -/
theorem wfRun_settled (evs : List WfEv) (st : WfState)
    (hl : st.listener = false) (hw : st.waiting = false) : wfRun st evs = st := by
  induction evs with
  | nil => rfl
  | cons ev evs ih => simp [wfRun, wfStep_settled st ev hl hw] at ih ⊢; exact ih

/-- C2: `waitForModule` settles its promise exactly once. For every signal
configuration and event interleaving the resolver runs at most once; a
signal already aborted at call time resolves immediately with `undefined`
(never a rejection — the executor has no reject path) and stays settled
under all later events; and an abort while waiting followed by a module
discovery leaves the promise settled exactly once with `undefined`, the
late discovery being a no-op. -/
theorem c2_waitForModule_settles_once (hasSignal signalAborted : Bool)
    (existing : Option Nat) (evs : List WfEv) (m : Nat) :
    (wfRun (waitForModuleSetup hasSignal signalAborted existing) evs).resolveCalls ≤ 1
    ∧ wfRun (waitForModuleSetup true true existing) evs
        = ⟨true, false, false, 1, some .notFoundUndef⟩
    ∧ wfRun (waitForModuleSetup true false none) [WfEv.abortFire, WfEv.discovery m]
        = ⟨true, false, false, 1, some .notFoundUndef⟩ := by
  refine ⟨(wfRun_inv evs _ (wfSetup_inv hasSignal signalAborted existing)).1, ?_, ?_⟩
  · have hsetup : waitForModuleSetup true true existing
        = ⟨true, false, false, 1, some .notFoundUndef⟩ := rfl
    rw [hsetup]
    exact wfRun_settled evs _ rfl rfl
  · rfl

/-! ## C3: queued-plugin visibility window -/

/-- C3 counterexample: the claim states the placeholder is queued before
metadata parsing begins and removed when assembly fails. In the code the
push happens only after parsing, and an instantiation failure propagates
without the splice: starting from an empty queue, the plugin is not
discoverable during parsing and is still queued after the failure. -/
theorem c3_counterexample :
    (convertPluginQueue [] "a.plugin.js" .instFail).queueDuringParse.contains "a.plugin.js"
        = false
    ∧ (convertPluginQueue [] "a.plugin.js" .instFail).finalQueue.contains "a.plugin.js"
        = true := by
  constructor <;> rfl

/-- Removing the just-pushed filename from the end of a queue that did not
already contain it restores the original queue. -/
theorem eraseFirst_append (q0 : List String) (fn : String) (h : fn ∉ q0) :
    eraseFirstFilename (q0 ++ [fn]) fn = q0 := by
  induction q0 with
  | nil => simp [eraseFirstFilename]
  | cons x xs ih =>
    simp only [List.mem_cons, not_or] at h
    have hx : ¬ x = fn := fun hx => h.1 hx.symm
    simp [eraseFirstFilename, hx, ih h.2]

/-- C3 (amended): during metadata parsing the queue is still the initial
one (the placeholder is pushed only after parsing succeeds); the push is
reached exactly when parsing does not fail; and after the run the entry is
present exactly on the two failure paths that throw past the splice
(instantiation failure and missing metadata) — on success it is removed,
and on a parse failure it was never added. -/
theorem c3_queue_window (q0 : List String) (fn : String) (outcome : AsmOutcome)
    (h : fn ∉ q0) :
    (convertPluginQueue q0 fn outcome).queueDuringParse = q0
    ∧ ((convertPluginQueue q0 fn outcome).pushedAfterParse = true ↔ outcome ≠ .parseFail)
    ∧ (fn ∈ (convertPluginQueue q0 fn outcome).finalQueue ↔
        (outcome = .instFail ∨ outcome = .missingMeta)) := by
  cases outcome with
  | parseFail => exact ⟨rfl, by simp [convertPluginQueue], by simp [convertPluginQueue, h]⟩
  | instFail => exact ⟨rfl, by simp [convertPluginQueue], by simp [convertPluginQueue]⟩
  | missingMeta => exact ⟨rfl, by simp [convertPluginQueue], by simp [convertPluginQueue]⟩
  | ok =>
    refine ⟨rfl, by simp [convertPluginQueue], ?_⟩
    simp [convertPluginQueue, eraseFirst_append q0 fn h, h]

/-- C3 witness: the amended theorem applied at a concrete queue and
filename. -/
theorem c3_witness :
    "x.plugin.js" ∉ ["other.plugin.js"]
    ∧ (convertPluginQueue ["other.plugin.js"] "x.plugin.js" AsmOutcome.ok).queueDuringParse
        = ["other.plugin.js"] :=
  ⟨by decide, (c3_queue_window ["other.plugin.js"] "x.plugin.js" AsmOutcome.ok (by decide)).1⟩

/-! ## C8: getMangled key guarantees -/

/-- Lookup distributes over list append, preferring the left list. -/
theorem lookup_append_or {β : Type} (l1 l2 : List (String × β)) (k : String) :
    (l1 ++ l2).lookup k = optOr (l1.lookup k) (l2.lookup k) := by
  induction l1 with
  | nil => simp [List.lookup, optOr]
  | cons hd tl ih =>
    obtain ⟨k0, v0⟩ := hd
    cases h : (k == k0) with
    | true => simp [List.lookup, h, optOr]
    | false => simp [List.lookup, h, ih]

/-- Leftmost-entry preference of `optOr` on a present value. -/
theorem optOr_some {α : Type} (w : α) (d : Option α) : optOr (some w) d = some w := rfl

/-- Fallback of `optOr` on an absent value. -/
theorem optOr_none {α : Type} (d : Option α) : optOr none d = d := rfl

/-- Lookup into a singleton-extended list at the extension key. -/
theorem lookup_snoc_self {β : Type} (l : List (String × β)) (k : String) (v : β)
    (h : l.lookup k = none) : (l ++ [(k, v)]).lookup k = some v := by
  rw [lookup_append_or, h, optOr_none]
  simp [List.lookup]

/-- Lookup into a singleton-extended list at a different key. -/
theorem lookup_snoc_other {β : Type} (l : List (String × β)) (k k0 : String) (v : β)
    (h : ¬ k = k0) : (l ++ [(k0, v)]).lookup k = l.lookup k := by
  rw [lookup_append_or]
  have hne : (k == k0) = false := beq_eq_false_iff_ne.mpr h
  cases l.lookup k <;> simp [optOr, List.lookup, hne]

/-- The inner mapper loop leaves keys outside the mapper table unchanged. -/
theorem mapLoopInner_lookup_notmem (mappers : List (String × (MVal → Bool)))
    (v : MVal) (mapped : List (String × MVal)) (k : String)
    (hk : k ∉ mappers.map Prod.fst) :
    (mapLoopInner mappers v mapped).lookup k = mapped.lookup k := by
  induction mappers generalizing mapped with
  | nil => rfl
  | cons mp rest ih =>
    obtain ⟨mk, mvf⟩ := mp
    simp only [List.map_cons, List.mem_cons, not_or] at hk
    show (mapLoopInner rest v
      (if (mapped.lookup mk).isSome then mapped
       else if mvf v then mapped ++ [(mk, v)] else mapped)).lookup k = mapped.lookup k
    rw [ih _ hk.2]
    by_cases h1 : (mapped.lookup mk).isSome
    · simp [h1]
    · by_cases h2 : mvf v
      · simp [h1, h2, lookup_snoc_other mapped k mk v hk.1]
      · simp [h1, h2]

/-- Value assigned by the inner mapper loop to a requested key: an already
mapped key keeps its value, otherwise the key receives the current module
value exactly when its validator accepts it. -/
theorem mapLoopInner_lookup (mappers : List (String × (MVal → Bool)))
    (v : MVal) (mapped : List (String × MVal)) (k : String) (vf : MVal → Bool)
    (hnd : (mappers.map Prod.fst).Nodup) (hmem : (k, vf) ∈ mappers) :
    (mapLoopInner mappers v mapped).lookup k
      = optOr (mapped.lookup k) (if vf v then some v else none) := by
  induction mappers generalizing mapped with
  | nil => cases hmem
  | cons mp rest ih =>
    obtain ⟨mk, mvf⟩ := mp
    simp only [List.map_cons, List.nodup_cons] at hnd
    show (mapLoopInner rest v
      (if (mapped.lookup mk).isSome then mapped
       else if mvf v then mapped ++ [(mk, v)] else mapped)).lookup k = _
    rcases List.mem_cons.mp hmem with heq | hmem2
    · simp only [Prod.mk.injEq] at heq
      obtain ⟨hk1, hvf⟩ := heq
      subst hk1
      subst hvf
      rw [mapLoopInner_lookup_notmem rest v _ k hnd.1]
      cases hlk : mapped.lookup k with
      | some w => simp [hlk, optOr_some]
      | none =>
        by_cases h2 : vf v
        · simp only [hlk, Option.isSome_none, Bool.false_eq_true, if_false, h2, if_true,
            optOr_none]
          exact lookup_snoc_self mapped k v hlk
        · simp [hlk, h2, optOr_none]
    · have hkrest : k ∈ rest.map Prod.fst :=
        List.mem_map.mpr ⟨(k, vf), hmem2, rfl⟩
      have hne : ¬ k = mk := fun hx => hnd.1 (hx ▸ hkrest)
      by_cases h1 : (mapped.lookup mk).isSome
      · simp only [h1, if_true]
        exact ih _ hnd.2 hmem2
      · by_cases h2 : mvf v
        · simp only [h1, h2, Bool.false_eq_true, if_false, if_true]
          rw [ih _ hnd.2 hmem2, lookup_snoc_other mapped k mk v hne]
        · simp only [h1, h2, Bool.false_eq_true, if_false]
          exact ih _ hnd.2 hmem2

/-- Value of a requested key after the outer module loop: the first
flattened module value (in enumeration order) accepted by the key's
validator, if any. -/
theorem mapLoop_lookup_gen (wm : List (String × MVal))
    (mappers : List (String × (MVal → Bool))) (mapped : List (String × MVal))
    (k : String) (vf : MVal → Bool)
    (hnd : (mappers.map Prod.fst).Nodup) (hmem : (k, vf) ∈ mappers) :
    (wm.foldl (fun mapped kv => mapLoopInner mappers kv.2 mapped) mapped).lookup k
      = optOr (mapped.lookup k) ((wm.find? (fun kv => vf kv.2)).map Prod.snd) := by
  induction wm generalizing mapped with
  | nil => cases hlk : mapped.lookup k <;> simp [hlk, optOr]
  | cons kv wm ih =>
    simp only [List.foldl_cons]
    rw [ih _]
    rw [mapLoopInner_lookup mappers kv.2 mapped k vf hnd hmem]
    cases hlk : mapped.lookup k with
    | some w => simp [optOr]
    | none =>
      by_cases hv : vf kv.2
      · simp [optOr, hv, List.find?]
      · simp [optOr, hv, List.find?]

/-- The ensure pass leaves keys outside the mapper table unchanged. -/
theorem ensureKeys_lookup_notmem (mappers : List (String × (MVal → Bool)))
    (mapped : List (String × MVal)) (k : String)
    (hk : k ∉ mappers.map Prod.fst) :
    (ensureKeys mapped mappers).lookup k = mapped.lookup k := by
  induction mappers generalizing mapped with
  | nil => rfl
  | cons mp rest ih =>
    obtain ⟨mk, mvf⟩ := mp
    simp only [List.map_cons, List.mem_cons, not_or] at hk
    show (ensureKeys
      (if (mapped.lookup mk).isSome then mapped else mapped ++ [(mk, MVal.undef)])
      rest).lookup k = mapped.lookup k
    rw [ih _ hk.2]
    by_cases h1 : (mapped.lookup mk).isSome
    · simp [h1]
    · simp [h1, lookup_snoc_other mapped k mk MVal.undef hk.1]

/-- After the ensure pass every requested key is present, holding its
mapped value or `undefined`. -/
theorem ensureKeys_lookup (mappers : List (String × (MVal → Bool)))
    (mapped : List (String × MVal)) (k : String) (vf : MVal → Bool)
    (hnd : (mappers.map Prod.fst).Nodup) (hmem : (k, vf) ∈ mappers) :
    (ensureKeys mapped mappers).lookup k = some ((mapped.lookup k).getD .undef) := by
  induction mappers generalizing mapped with
  | nil => cases hmem
  | cons mp rest ih =>
    obtain ⟨mk, mvf⟩ := mp
    simp only [List.map_cons, List.nodup_cons] at hnd
    show (ensureKeys
      (if (mapped.lookup mk).isSome then mapped else mapped ++ [(mk, MVal.undef)])
      rest).lookup k = _
    rcases List.mem_cons.mp hmem with heq | hmem2
    · simp only [Prod.mk.injEq] at heq
      obtain ⟨hk1, hvf⟩ := heq
      subst hk1
      rw [ensureKeys_lookup_notmem rest _ k hnd.1]
      cases hlk : mapped.lookup k with
      | some w => simp [hlk]
      | none =>
        simp only [hlk, Option.isSome_none, Bool.false_eq_true, if_false, Option.getD_none]
        exact lookup_snoc_self mapped k MVal.undef hlk
    · have hkrest : k ∈ rest.map Prod.fst :=
        List.mem_map.mpr ⟨(k, vf), hmem2, rfl⟩
      have hne : ¬ k = mk := fun hx => hnd.1 (hx ▸ hkrest)
      by_cases h1 : (mapped.lookup mk).isSome
      · simp only [h1, if_true]
        exact ih _ hnd.2 hmem2
      · simp only [h1, Bool.false_eq_true, if_false]
        rw [ih _ hnd.2 hmem2, lookup_snoc_other mapped k mk MVal.undef hne]

/-- C8 counterexample: the claim states that even when no module matches
the filter, every requested key is present as an own property of the
result. In that case the source returns the empty object literal, which
has no own properties at all. -/
theorem c8_counterexample :
    ((getMangled none [("a", fun _ => true)]).lookup "a").isSome = false := rfl

/-- C8 (amended): when a module is found, every key of the field-to-
validator mapping is an own property of the result — holding the first
flattened module value accepted by that key's validator, or `undefined`
when no value is accepted — and the validators are matched against the
getter-flattened writable bag; when no module matches the filter, the
empty object is returned (destructuring from it still cannot fail, but the
requested keys are not own properties). -/
theorem c8_getMangled_keys (m : List (String × PDesc))
    (mappers : List (String × (MVal → Bool))) (k : String) (vf : MVal → Bool)
    (hnd : (mappers.map Prod.fst).Nodup) (hmem : (k, vf) ∈ mappers) :
    ((getMangled (some m) mappers).lookup k).isSome = true
    ∧ (getMangled (some m) mappers).lookup k
        = some ((((flattenModule m).find? (fun kv => vf kv.2)).map Prod.snd).getD .undef)
    ∧ getMangled none mappers = [] := by
  have hmain : (getMangled (some m) mappers).lookup k
      = some ((((flattenModule m).find? (fun kv => vf kv.2)).map Prod.snd).getD .undef) := by
    show (ensureKeys (mapLoop (flattenModule m) mappers) mappers).lookup k = _
    rw [ensureKeys_lookup mappers _ k vf hnd hmem]
    have := mapLoop_lookup_gen (flattenModule m) mappers [] k vf hnd hmem
    rw [show mapLoop (flattenModule m) mappers
        = (flattenModule m).foldl (fun mapped kv => mapLoopInner mappers kv.2 mapped) []
      from rfl, this]
    rfl
  exact ⟨by rw [hmain]; rfl, hmain, rfl⟩

/-- C8 witness: a getter-only property is flattened and matched, and the
requested key is present with the flattened value. -/
theorem c8_witness :
    ((([("a", fun v => v == MVal.val 5)] :
        List (String × (MVal → Bool))).map Prod.fst).Nodup)
    ∧ (getMangled (some [("x", PDesc.getterOnly (some (MVal.val 5)))])
        [("a", fun v => v == MVal.val 5)]).lookup "a" = some (MVal.val 5) := by
  refine ⟨by simp, ?_⟩
  have h := c8_getMangled_keys [("x", PDesc.getterOnly (some (MVal.val 5)))]
      [("a", fun v => v == MVal.val 5)] "a" (fun v => v == MVal.val 5)
      (by simp) (List.mem_singleton.mpr rfl)
  rw [h.2.1]
  rfl

/-! ## C1: enable with hot-swap-if-updated -/

/-- C1 counterexample: the claim guarantees the plugin is never left
un-started because of a reload failure. When the on-disk signature differs
and the soft reload throws after it has already deregistered the old
instance (here: the re-read of the file fails), the fallback
`startPlugin(Vencord.Plugins.plugins[p.name])` runs against a deleted
registry entry, throws, and is swallowed — the plugin ends up un-started. -/
theorem c1_counterexample :
    (PluginsHolder.enable ⟨true, some "a.plugin.js", some 1, some 2⟩
        .failAtReread ⟨false, false, true, false⟩).1.started = false
    ∧ EnEv.warnLogged ∈ (PluginsHolder.enable ⟨true, some "a.plugin.js", some 1, some 2⟩
        .failAtReread ⟨false, false, true, false⟩).2 := by
  constructor
  · rfl
  · decide

/-- C1 (amended): for a resolvable, registered plugin, `enable` records
enabled-intent (both `enabled` and `pluginsStatus`) first; it attempts a
soft reload exactly when the source's signature condition holds, and that
condition is implied by "the on-disk signature exists and differs from the
stamped one, or none was ever stamped" (given the invariant that a stamped
signature implies a truthy filename); a successful soft reload starts the
fresh instance and never starts the stale one; a reload that throws before
detaching falls back to starting the existing instance with a logged
warning; but a reload that throws after detaching (re-read or re-assembly
failure) leaves the plugin un-started despite the warning-and-fallback,
because the fallback start targets the deregistered entry; with no reload
needed, the existing instance is started. -/
theorem c1_enable_amended (inp : EnInput) (outcome : ReloadOutcome) (st0 : EnState)
    (hres : inp.resolved = true) (hreg : st0.registered = true)
    (hinv : inp.hadSig.isSome = true → jsTruthyStr inp.currentFilename = true) :
    ((PluginsHolder.enable inp outcome st0).2.take 2 = [.markEnabled, .markStatus])
    ∧ (PluginsHolder.enable inp outcome st0).1.enabled = true
    ∧ (PluginsHolder.enable inp outcome st0).1.status = true
    ∧ (EnEv.reloadAttempt ∈ (PluginsHolder.enable inp outcome st0).2 ↔ enableCond inp = true)
    ∧ (inp.nowSig.isSome = true → (inp.hadSig = none ∨ inp.hadSig ≠ inp.nowSig) →
        enableCond inp = true)
    ∧ (enableCond inp = true → outcome = .ok →
        (PluginsHolder.enable inp outcome st0).1.started = true
        ∧ EnEv.startExisting ∉ (PluginsHolder.enable inp outcome st0).2)
    ∧ (enableCond inp = true → outcome = .noFsOrFilename →
        (PluginsHolder.enable inp outcome st0).1.started = true
        ∧ EnEv.warnLogged ∈ (PluginsHolder.enable inp outcome st0).2
        ∧ EnEv.startExisting ∈ (PluginsHolder.enable inp outcome st0).2)
    ∧ (enableCond inp = true → (outcome = .failAtReread ∨ outcome = .failAtAssemble) →
        (PluginsHolder.enable inp outcome st0).1.started = false
        ∧ EnEv.warnLogged ∈ (PluginsHolder.enable inp outcome st0).2)
    ∧ (enableCond inp = false → (PluginsHolder.enable inp outcome st0).1.started = true) := by
  have hcondlem : inp.nowSig.isSome = true → (inp.hadSig = none ∨ inp.hadSig ≠ inp.nowSig) →
      enableCond inp = true := by
    intro hnow hdiff
    unfold enableCond
    cases hhad : inp.hadSig with
    | none => simp [jsTruthyNum, hnow]
    | some h =>
      have hfile := hinv (by rw [hhad]; rfl)
      rcases hdiff with hnone | hne
      · rw [hhad] at hnone; cases hnone
      · rw [hhad] at hne
        have hbne : ((some h : Option Int) != inp.nowSig) = true := bne_iff_ne.mpr hne
        simp [hfile, hnow, hbne]
  refine ⟨?_, ?_, ?_, ?_, hcondlem, ?_, ?_, ?_, ?_⟩ <;>
    cases houtcome : outcome <;>
      by_cases hc : enableCond inp = true <;>
        simp_all [PluginsHolder.enable, softReloadBDPlugin, hres, hreg]

/-- C1 witness: the amended theorem applied to a resolvable registered
plugin whose on-disk signature matches the stamped one — no reload, the
existing instance is started. -/
theorem c1_witness :
    enableCond ⟨true, some "a.plugin.js", some 5, some 5⟩ = false
    ∧ (PluginsHolder.enable ⟨true, some "a.plugin.js", some 5, some 5⟩ .ok
        ⟨false, false, true, false⟩).1.started = true := by
  refine ⟨by decide, ?_⟩
  exact (c1_enable_amended ⟨true, some "a.plugin.js", some 5, some 5⟩ .ok
      ⟨false, false, true, false⟩ rfl rfl (fun _ => rfl)).2.2.2.2.2.2.2.2 (by decide)

/-! ## C5: vcIsNewer agrees with numeric tuple comparison -/

/-- The `(a[i] || 0)` view of a mapped component list agrees with the
integer tuple padded with zeros. -/
theorem compAt_map_getD (l : List String) (i : Nat) :
    compAt (l.map jsNum) i
      = (l.map (fun c => (chToNat? c.toList).getD 0)).getD i 0 := by
  induction l generalizing i with
  | nil => cases i <;> rfl
  | cons c cs ih =>
    cases i with
    | zero =>
      by_cases hce : c = ""
      · subst hce; rfl
      · simp only [List.map_cons, compAt, List.get?, jsNum, hce, if_false,
          List.getD_cons_zero]
        cases hn : chToNat? c.toList <;> simp [hn]
    | succ i =>
      simp only [List.map_cons, List.getD_cons_succ]
      exact ih i

/-- `compAt` over the source's parsed tuple is the padded spec tuple. -/
theorem compAt_eq_getD (s : String) (i : Nat) :
    compAt (verTuple s) i = (intTuple s).getD i 0 := by
  unfold verTuple intTuple
  exact compAt_map_getD (jsSplit s '.') i

/-- Characterization of the `vcIsNewer` loop: it returns `true` iff within
its fuel window there is a position where the first tuple exceeds the
second while all earlier positions in the window agree. -/
theorem isNewerLoop_iff (a b : List (Option Nat)) (fuel : Nat) : ∀ i,
    (isNewerLoop a b i fuel = true ↔
      ∃ j, i ≤ j ∧ j < i + fuel ∧ compAt a j > compAt b j
        ∧ ∀ k, i ≤ k → k < j → compAt a k = compAt b k) := by
  induction fuel with
  | zero =>
    intro i
    simp only [isNewerLoop]
    constructor
    · intro h; cases h
    · rintro ⟨j, h1, h2, _, _⟩; omega
  | succ fuel ih =>
    intro i
    simp only [isNewerLoop]
    rcases lt_trichotomy (compAt a i) (compAt b i) with hlt | heq | hgt
    · have h1 : ¬ compAt a i > compAt b i := by omega
      rw [if_neg h1, if_pos hlt]
      constructor
      · intro h; cases h
      · rintro ⟨j, hij, hjlt, hgt2, hpre⟩
        rcases Nat.eq_or_lt_of_le hij with hji | hji
        · subst hji; omega
        · have := hpre i (Nat.le_refl i) hji
          omega
    · have h1 : ¬ compAt a i > compAt b i := by omega
      have h2 : ¬ compAt a i < compAt b i := by omega
      rw [if_neg h1, if_neg h2, ih (i + 1)]
      constructor
      · rintro ⟨j, hij, hjlt, hgt2, hpre⟩
        refine ⟨j, by omega, by omega, hgt2, fun k hk1 hk2 => ?_⟩
        rcases Nat.eq_or_lt_of_le hk1 with hk | hk
        · exact hk ▸ heq
        · exact hpre k (by omega) hk2
      · rintro ⟨j, hij, hjlt, hgt2, hpre⟩
        have hji : i ≠ j := by rintro rfl; omega
        exact ⟨j, by omega, by omega, hgt2, fun k hk1 hk2 => hpre k (by omega) hk2⟩
    · rw [if_pos hgt]
      constructor
      · intro _
        exact ⟨i, Nat.le_refl i, by omega, hgt, fun k hk1 hk2 => by omega⟩
      · intro _; rfl

/-- Beyond the list's length all padded components are zero. -/
theorem compAt_eq_zero_of_ge (a : List (Option Nat)) (i : Nat) (h : a.length ≤ i) :
    compAt a i = 0 := by
  unfold compAt
  rw [List.get?_eq_none.mpr h]

/-- `vcIsNewer` decides exactly the dotted-integer-tuple order `TupleGt`. -/
theorem vcIsNewer_iff_TupleGt (v1 v2 : String) :
    vcIsNewer v1 v2 = true ↔ TupleGt (intTuple v1) (intTuple v2) := by
  have hlen1 : (verTuple v1).length = (intTuple v1).length := by
    simp [verTuple, intTuple]
  have hlen2 : (verTuple v2).length = (intTuple v2).length := by
    simp [verTuple, intTuple]
  rw [show vcIsNewer v1 v2
      = isNewerLoop (verTuple v1) (verTuple v2) 0
          (max (verTuple v1).length (verTuple v2).length) from rfl]
  rw [isNewerLoop_iff]
  unfold TupleGt
  constructor
  · rintro ⟨j, _, _, hgt, hpre⟩
    refine ⟨j, fun k hk => ?_, ?_⟩
    · rw [← compAt_eq_getD, ← compAt_eq_getD]
      exact hpre k (Nat.zero_le k) hk
    · rw [← compAt_eq_getD, ← compAt_eq_getD]
      exact hgt
  · rintro ⟨j, hpre, hgt⟩
    by_cases hj : j < max (verTuple v1).length (verTuple v2).length
    · refine ⟨j, Nat.zero_le j, by omega, ?_, fun k _ hk => ?_⟩
      · rw [compAt_eq_getD, compAt_eq_getD]
        exact hgt
      · rw [compAt_eq_getD, compAt_eq_getD]
        exact hpre k hk
    · exfalso
      push_neg at hj
      have e1 : (intTuple v1).length ≤ j := by
        rw [← hlen1]; exact Nat.le_trans (Nat.le_max_left _ _) hj
      have e2 : (intTuple v2).length ≤ j := by
        rw [← hlen2]; exact Nat.le_trans (Nat.le_max_right _ _) hj
      rw [List.getD_eq_default _ _ e1, List.getD_eq_default _ _ e2] at hgt
      omega

/-- Index shift for `TupleGt` when the heads of the padded tuples agree. -/
theorem TupleGt_shift (A B A2 B2 : List Nat)
    (h0 : A.getD 0 0 = B.getD 0 0)
    (ha : ∀ j, A.getD (j + 1) 0 = A2.getD j 0)
    (hb : ∀ j, B.getD (j + 1) 0 = B2.getD j 0) :
    TupleGt A B ↔ TupleGt A2 B2 := by
  constructor
  · rintro ⟨i, hpre, hgt⟩
    cases i with
    | zero => rw [h0] at hgt; omega
    | succ i =>
      refine ⟨i, fun j hj => ?_, ?_⟩
      · rw [← ha j, ← hb j]
        exact hpre (j + 1) (by omega)
      · rw [← ha i, ← hb i]
        exact hgt
  · rintro ⟨i, hpre, hgt⟩
    refine ⟨i + 1, fun j hj => ?_, ?_⟩
    · cases j with
      | zero => exact h0
      | succ j =>
        rw [ha j, hb j]
        exact hpre j (by omega)
    · rw [ha i, hb i]
      exact hgt

/-- The spec-side Boolean comparison decides `TupleGt`. -/
theorem tupleGtB_iff (A : List Nat) : ∀ B, (tupleGtB A B = true ↔ TupleGt A B) := by
  induction A with
  | nil =>
    intro B
    constructor
    · intro h
      simp [tupleGtB] at h
    · rintro ⟨i, _, hgt⟩
      simp at hgt
  | cons a as iha =>
    intro B
    cases B with
    | nil =>
      show (if a > 0 then true else tupleGtB as []) = true ↔ _
      by_cases ha0 : a > 0
      · rw [if_pos ha0]
        constructor
        · intro _
          exact ⟨0, fun j hj => by omega, by simpa using ha0⟩
        · intro _; rfl
      · rw [if_neg ha0]
        have ha0e : a = 0 := by omega
        subst ha0e
        rw [iha []]
        exact (TupleGt_shift (0 :: as) [] as [] (by simp) (fun j => by simp)
          (fun j => by simp)).symm
    | cons b bs =>
      show (if a > b then true else if a < b then false else tupleGtB as bs) = true ↔ _
      rcases lt_trichotomy a b with hlt | heq | hgt
      · have h1 : ¬ a > b := by omega
        rw [if_neg h1, if_pos hlt]
        constructor
        · intro h; cases h
        · rintro ⟨i, hpre, hgt2⟩
          cases i with
          | zero => simp at hgt2; omega
          | succ i =>
            have := hpre 0 (by omega)
            simp at this
            omega
      · subst heq
        have h1 : ¬ a > a := by omega
        have h2 : ¬ a < a := by omega
        rw [if_neg h1, if_neg h2, iha bs]
        exact (TupleGt_shift (a :: as) (a :: bs) as bs (by simp) (fun j => by simp)
          (fun j => by simp)).symm
      · rw [if_pos hgt]
        constructor
        · intro _
          exact ⟨0, fun j hj => by omega, by simpa using hgt⟩
        · intro _; rfl

/-- The source comparison and the spec comparison are the same Boolean
function of the parsed tuples. -/
theorem vcIsNewer_eq_tupleGtB (v1 v2 : String) :
    vcIsNewer v1 v2 = tupleGtB (intTuple v1) (intTuple v2) := by
  rw [Bool.eq_iff_iff, vcIsNewer_iff_TupleGt, tupleGtB_iff]

/-- C5: on dotted-integer version strings, `vcIsNewer(a, b)` returns true
iff the integer tuple of `a` exceeds that of `b` under numeric
left-to-right comparison with missing components read as 0; in particular
`vcIsNewer("1.9.0", "1.10.0")` is false and `vcIsNewer("1.10.0", "1.9.0")`
is true (numeric, not lexicographic). -/
theorem c5_isNewer_numeric (a b : String)
    (_ha : DottedIntStr a) (_hb : DottedIntStr b) :
    (vcIsNewer a b = true ↔ TupleGt (intTuple a) (intTuple b))
    ∧ vcIsNewer "1.9.0" "1.10.0" = false
    ∧ vcIsNewer "1.10.0" "1.9.0" = true :=
  ⟨vcIsNewer_iff_TupleGt a b, by decide, by decide⟩

/-- C5 witness: the theorem applied at the concrete pair ("2.10", "2.9"),
where numeric comparison says newer while lexicographic would not. -/
theorem c5_witness :
    DottedIntStr "2.10" ∧ DottedIntStr "2.9" ∧ vcIsNewer "2.10" "2.9" = true := by
  refine ⟨by decide, by decide, ?_⟩
  exact (c5_isNewer_numeric "2.10" "2.9" (by decide) (by decide)).1.mpr
    ⟨1, by decide, by decide⟩

/-! ## C4: changelog parse refines the spec description -/

/-- One push into the bucket record is an append onto the bucket selected
by the spec's priority rule. -/
theorem bucketGet_vcPushItem (g : Grouped) (ver it : String) (b : Bucket) :
    bucketGet (vcPushItem g ver it) b
      = if bucketOf it == b then bucketGet g b ++ [vcTag it ver] else bucketGet g b := by
  unfold vcPushItem bucketOf
  by_cases h1 : jsIncludes it.toLower "fix"
  · cases b <;> simp [h1, bucketGet]
  · by_cases h2 : (jsIncludes it.toLower "add" || jsIncludes it.toLower "initial") = true
    · cases b <;> simp [h1, h2, bucketGet]
    · by_cases h3 : (jsIncludes it.toLower "improv" || jsIncludes it.toLower "updat") = true
      · cases b <;> simp [h1, h2, h3, bucketGet]
      · cases b <;> simp [h1, h2, h3, bucketGet]

/-- The inner bullet loop appends, to each bucket, exactly the tagged
bullets the spec assigns to that bucket, in order. -/
theorem bucketGet_items_foldl (ver : String) (items : List String) (g : Grouped) (b : Bucket) :
    bucketGet (items.foldl (fun g it => vcPushItem g ver it) g) b
      = bucketGet g b
        ++ (items.filter (fun it => bucketOf it == b)).map (fun it => vcTag it ver) := by
  induction items generalizing g with
  | nil => simp
  | cons it rest ih =>
    simp only [List.foldl_cons, List.filter_cons]
    rw [ih]
    by_cases h : (bucketOf it == b) = true
    · simp [h, bucketGet_vcPushItem]
    · simp [h, bucketGet_vcPushItem]

/-- The outer block loop appends each bucket's spec contents. -/
theorem bucketGet_outer_foldl (relevant : List VBlock) (g : Grouped) (b : Bucket) :
    bucketGet (relevant.foldl
        (fun g v => v.items.foldl (fun g it => vcPushItem g v.version it) g) g) b
      = bucketGet g b ++ specBucketItems relevant b := by
  induction relevant generalizing g with
  | nil => simp [specBucketItems]
  | cons v rest ih =>
    simp only [List.foldl_cons]
    rw [ih, bucketGet_items_foldl]
    simp [specBucketItems]

/-- The grouped record built by the source equals the spec's buckets. -/
theorem bucketGet_vcGroupedOf (relevant : List VBlock) (b : Bucket) :
    bucketGet (vcGroupedOf relevant) b = specBucketItems relevant b := by
  unfold vcGroupedOf
  rw [bucketGet_outer_foldl]
  cases b <;> rfl

/-- The source's result assembly equals the spec's bucket-ordered output. -/
theorem vcResult_eq_spec (relevant : List VBlock) :
    vcResult (vcGroupedOf relevant)
      = [Bucket.added, Bucket.improved, Bucket.fixed, Bucket.other].filterMap
          (fun b =>
            let items := specBucketItems relevant b
            if items = [] then none else some (entryFor b items)) := by
  have ha := bucketGet_vcGroupedOf relevant .added
  have hi := bucketGet_vcGroupedOf relevant .improved
  have hf := bucketGet_vcGroupedOf relevant .fixed
  have ho := bucketGet_vcGroupedOf relevant .other
  simp only [bucketGet] at ha hi hf ho
  unfold vcResult
  rw [ha, hi, hf, ho]
  by_cases e1 : specBucketItems relevant .added = [] <;>
    by_cases e2 : specBucketItems relevant .improved = [] <;>
      by_cases e3 : specBucketItems relevant .fixed = [] <;>
        by_cases e4 : specBucketItems relevant .other = [] <;>
          simp [e1, e2, e3, e4, List.filterMap, entryFor]

/-- C4: `vcParseChangelog` agrees, for every markdown text and version
pair, with the spec description: a parsed `### x.y.z` block's bullets are
included iff the block's version is strictly newer than `fromVersion` and
not newer than `toVersion` under dotted-integer-tuple comparison; each
included bullet is tagged with its originating version, assigned to exactly
one bucket by case-insensitive substring priority
fixed, then added-or-initial, then improved-or-updated, then other; and the
output has one entry per non-empty bucket in the order added, improved,
fixed, other, empty buckets omitted. -/
theorem c4_parseChangelog_refines_spec (md fromV toV : String) :
    vcParseChangelog md fromV toV = specParseChangelog md fromV toV := by
  simp only [vcParseChangelog, specParseChangelog]
  have hrel : (vcScan (jsSplit md '\n') none).filter
        (fun v => vcIsNewer v.version fromV && !vcIsNewer v.version toV)
      = (vcScan (jsSplit md '\n') none).filter
          (fun v => specRelevant v.version fromV toV) := by
    apply List.filter_congr
    intro v _
    unfold specRelevant
    rw [vcIsNewer_eq_tupleGtB, vcIsNewer_eq_tupleGtB]
  rw [hrel]
  exact vcResult_eq_spec _
